import Mathlib

/-!
# TangLLM streaming response pipeline — verification development

Shallow embedding of the streaming SSE consumer of
`src/frontend/js/chat.js` (`ChatManager.sendMessage`, `scheduleRender`,
`cancelRequest`) together with proofs of the pipeline's specification
properties: chunking invariance of the incremental decode/split/parse
loop, monotone buffer growth, the final forced render, the render
throttle, cancellation semantics, the thinking-state machine, resource
release, the streaming guard, and the end-of-stream residual flush.

Bytes are modelled as `Nat`, decoded text as `List Char`, and time
(`performance.now()`) as `Nat` milliseconds.
-/

namespace TangLLM

/-! ## Splitting on the SSE frame separator

`buffer.split('\n\n')` from the read loop (chat.js line 266): leftmost,
non-overlapping split of a character sequence on two consecutive
newlines.  `consHead c ps` prepends `c` to the first part. -/

def consHead (c : Char) : List (List Char) → List (List Char)
  | [] => [[c]]
  | p :: ps => (c :: p) :: ps

def splitNN : List Char → List (List Char)
  | [] => [[]]
  | [c] => [[c]]
  | c1 :: c2 :: rest =>
    if c1 = '\n' ∧ c2 = '\n' then [] :: splitNN rest
    else consHead c1 (splitNN (c2 :: rest))

theorem consHead_ne_nil (c : Char) (ps : List (List Char)) : consHead c ps ≠ [] := by
  cases ps <;> simp [consHead]

theorem splitNN_ne_nil (l : List Char) : splitNN l ≠ [] := by
  match l with
  | [] => simp [splitNN]
  | [c] => simp [splitNN]
  | c1 :: c2 :: rest =>
    rw [splitNN]
    split
    · simp
    · exact consHead_ne_nil _ _

theorem splitNN_eq_single {l p : List Char} (h : splitNN l = [p]) : p = l := by
  match l with
  | [] => simp [splitNN] at h; simp [h]
  | [c] => simp [splitNN] at h; simp [h]
  | c1 :: c2 :: rest =>
    rw [splitNN] at h
    split at h
    · rename_i hnl
      obtain ⟨h1, h2⟩ := hnl
      simp at h
      exact absurd h.2 (splitNN_ne_nil rest)
    · rename_i hnl
      cases hS : splitNN (c2 :: rest) with
      | nil => exact absurd hS (splitNN_ne_nil _)
      | cons q qs =>
        rw [hS] at h
        simp [consHead] at h
        obtain ⟨h1, h2⟩ := h
        subst h2
        have := splitNN_eq_single hS
        simp [← h1, this]

theorem splitNN_cons_sep {c1 c2 : Char} (rest : List Char) (h : c1 = '\n' ∧ c2 = '\n') :
    splitNN (c1 :: c2 :: rest) = [] :: splitNN rest := by
  rw [splitNN, if_pos h]

theorem splitNN_cons_ne {c1 c2 : Char} (rest : List Char) (h : ¬(c1 = '\n' ∧ c2 = '\n')) :
    splitNN (c1 :: c2 :: rest) = consHead c1 (splitNN (c2 :: rest)) := by
  rw [splitNN, if_neg h]

theorem getLastD_irrel {α : Type} {l : List α} (h : l ≠ []) (d d' : α) :
    l.getLastD d = l.getLastD d' := by
  match l with
  | [] => exact absurd rfl h
  | [a] => rfl
  | a :: b :: r =>
    simp only [List.getLastD_cons]

theorem getLastD_append_right {α : Type} (l1 : List α) {l2 : List α} (h : l2 ≠ []) (d : α) :
    (l1 ++ l2).getLastD d = l2.getLastD d := by
  match l1 with
  | [] => rfl
  | a :: r =>
    rw [List.cons_append, List.getLastD_cons, getLastD_append_right r h a]
    exact getLastD_irrel h a d

theorem dropLast_append_right {α : Type} (l1 : List α) {l2 : List α} (h : l2 ≠ []) :
    (l1 ++ l2).dropLast = l1 ++ l2.dropLast := by
  match l1 with
  | [] => rfl
  | a :: r =>
    rw [List.cons_append]
    cases hr : r ++ l2 with
    | nil => simp at hr; simp [hr.2] at h
    | cons b s =>
      rw [List.dropLast_cons₂, ← hr, dropLast_append_right r h]
      simp

theorem dropLast_cons_ne_nil {α : Type} (a : α) {l : List α} (h : l ≠ []) :
    (a :: l).dropLast = a :: l.dropLast := by
  cases l with
  | nil => exact absurd rfl h
  | cons b s => exact List.dropLast_cons₂

theorem getLastD_cons_ne_nil {α : Type} (a : α) {l : List α} (h : l ≠ []) (d : α) :
    (a :: l).getLastD d = l.getLastD d := by
  rw [List.getLastD_cons]
  exact getLastD_irrel h a d

/-- Decomposition of the frame splitter: splitting `x ++ y` is the same as
splitting `x`, keeping its last (incomplete) part as carry, and re-splitting
the carry prefixed onto `y`.  This is exactly the loop's
`buffer = events.pop()` carry discipline. -/
theorem splitNN_append (x y : List Char) :
    splitNN (x ++ y) =
      (splitNN x).dropLast ++ splitNN ((splitNN x).getLastD [] ++ y) := by
  match x with
  | [] => simp [splitNN]
  | [c] => simp [splitNN]
  | c1 :: c2 :: rest =>
    by_cases hnl : c1 = '\n' ∧ c2 = '\n'
    · have hx : splitNN (c1 :: c2 :: rest) = [] :: splitNN rest := splitNN_cons_sep rest hnl
      have hxy : splitNN ((c1 :: c2 :: rest) ++ y) = [] :: splitNN (rest ++ y) := by
        rw [List.cons_append, List.cons_append]
        exact splitNN_cons_sep _ hnl
      rw [hxy, hx, splitNN_append rest y,
        dropLast_cons_ne_nil _ (splitNN_ne_nil rest),
        getLastD_cons_ne_nil _ (splitNN_ne_nil rest)]
      simp
    · have hx : splitNN (c1 :: c2 :: rest) = consHead c1 (splitNN (c2 :: rest)) :=
        splitNN_cons_ne rest hnl
      have hxy : splitNN ((c1 :: c2 :: rest) ++ y) =
          consHead c1 (splitNN (c2 :: (rest ++ y))) := by
        rw [List.cons_append, List.cons_append]
        exact splitNN_cons_ne _ hnl
      have ih := splitNN_append (c2 :: rest) y
      rw [List.cons_append] at ih
      cases hS : splitNN (c2 :: rest) with
      | nil => exact absurd hS (splitNN_ne_nil _)
      | cons p ps =>
        rw [hS] at ih
        cases ps with
        | nil =>
          have hp : p = c2 :: rest := splitNN_eq_single hS
          rw [hxy, hx, hS]
          have h1 : consHead c1 [p] = [c1 :: p] := rfl
          have h2 : ([c1 :: p] : List (List Char)).dropLast = [] := rfl
          have h3 : ([c1 :: p] : List (List Char)).getLastD [] = c1 :: p := rfl
          rw [h1, h2, h3, List.nil_append]
          have h4 : (c1 :: p) ++ y = c1 :: c2 :: (rest ++ y) := by rw [hp]; rfl
          rw [h4, splitNN_cons_ne _ hnl]
        | cons q qs =>
          have hne : (q :: qs : List (List Char)) ≠ [] := by simp
          rw [hxy, hx, hS, ih]
          have h1 : consHead c1 (p :: q :: qs) = (c1 :: p) :: q :: qs := rfl
          rw [h1, dropLast_cons_ne_nil p hne, dropLast_cons_ne_nil (c1 :: p) hne,
            getLastD_cons_ne_nil p hne, getLastD_cons_ne_nil (c1 :: p) hne]
          simp [consHead]

/-! ## Incremental UTF-8 decoding

`new TextDecoder()` with `decoder.decode(value, { stream: true })`
(chat.js lines 187, 263) carries partial-codepoint state between chunks.
The platform decoder is modelled as a byte-at-a-time automaton whose
state is the pending incomplete codepoint prefix; malformed input yields
U+FFFD replacement characters. -/

def utf8Need (b : Nat) : Nat :=
  if b < 0x80 then 1
  else if b < 0xC0 then 1
  else if b < 0xE0 then 2
  else if b < 0xF0 then 3
  else if b < 0xF8 then 4
  else 1

def leadPayload (b : Nat) : Nat :=
  if b < 0x80 then b
  else if b < 0xE0 then b % 32
  else if b < 0xF0 then b % 16
  else b % 8

def utf8Scalar : List Nat → Nat
  | [] => 0
  | b :: rest => rest.foldl (fun a c => a * 64 + c % 64) (leadPayload b)

def replChar : Char := Char.ofNat 0xFFFD

def scalarChar (n : Nat) : Char :=
  if n < 0xD800 || (0xDFFF < n && n < 0x110000) then Char.ofNat n else replChar

def decodeSingle (b : Nat) : Char :=
  if b < 0x80 then Char.ofNat b else replChar

def isCont (b : Nat) : Bool := decide (0x80 ≤ b) && decide (b < 0xC0)

def utf8Step (pend : List Nat) (b : Nat) : List Nat × List Char :=
  match pend with
  | [] => if utf8Need b = 1 then ([], [decodeSingle b]) else ([b], [])
  | p :: _ =>
    if isCont b then
      if (pend ++ [b]).length = utf8Need p then ([], [scalarChar (utf8Scalar (pend ++ [b]))])
      else (pend ++ [b], [])
    else
      if utf8Need b = 1 then ([], [replChar, decodeSingle b])
      else ([b], [replChar])

def utf8DecodeFold (s : List Nat × List Char) (b : Nat) : List Nat × List Char :=
  ((utf8Step s.1 b).1, s.2 ++ (utf8Step s.1 b).2)

/-- Incremental decode of one chunk from pending state `pend`: returns the
new pending state and the characters produced. -/
def utf8DecodeChunk (pend : List Nat) (bytes : List Nat) : List Nat × List Char :=
  bytes.foldl utf8DecodeFold (pend, [])

theorem utf8DecodeFold_out (bytes : List Nat) (pend : List Nat) (out : List Char) :
    bytes.foldl utf8DecodeFold (pend, out) =
      ((utf8DecodeChunk pend bytes).1, out ++ (utf8DecodeChunk pend bytes).2) := by
  induction bytes generalizing pend out with
  | nil => simp [utf8DecodeChunk]
  | cons b rest ih =>
    simp only [utf8DecodeChunk, List.foldl_cons, utf8DecodeFold]
    rw [ih, ih]
    simp [List.append_assoc]

/-- Chunk composition for the incremental decoder: decoding `b1` then `b2`
from the carried state produces the same output as decoding `b1 ++ b2`. -/
theorem utf8DecodeChunk_append (pend b1 b2 : List Nat) :
    utf8DecodeChunk pend (b1 ++ b2) =
      ((utf8DecodeChunk (utf8DecodeChunk pend b1).1 b2).1,
        (utf8DecodeChunk pend b1).2 ++ (utf8DecodeChunk (utf8DecodeChunk pend b1).1 b2).2) := by
  unfold utf8DecodeChunk
  rw [List.foldl_append]
  rw [show (b1.foldl utf8DecodeFold (pend, [])) =
    ((utf8DecodeChunk pend b1).1, [] ++ (utf8DecodeChunk pend b1).2) from
      utf8DecodeFold_out b1 pend []]
  rw [List.nil_append]
  exact utf8DecodeFold_out b2 _ _

/-! ## Lines, the `data: ` tag, and JSON payload decoding

`event.split('\n')` and `line.startsWith('data: ')` (chat.js lines
272-274); `JSON.parse(line.slice(6))` plus the `data.type` dispatch
(lines 276-346).

`JSON.parse` is a platform builtin, not code of this repository; it is
modelled here restricted to the wire schema of the SSE event contract
(flat objects with string / integer / boolean / null fields). -/

def splitLines : List Char → List (List Char)
  | [] => [[]]
  | c :: rest => if c = '\n' then [] :: splitLines rest else consHead c (splitLines rest)

def dataTag : List Char := 'd' :: 'a' :: 't' :: 'a' :: ':' :: ' ' :: []

/-- JavaScript values a decoded payload field can hold (including
`undefined` for a missing property). -/
inductive JVal where
  | jstr (s : List Char)
  | jnum (n : Int)
  | jbool (b : Bool)
  | jnull
  | jundefined
deriving DecidableEq, Repr

def parseStrBody : List Char → Option (List Char × List Char)
  | [] => none
  | '"' :: r => some ([], r)
  | '\\' :: e :: r =>
    match parseStrBody r with
    | none => none
    | some (s, r') =>
      if e = '"' then some ('"' :: s, r')
      else if e = '\\' then some ('\\' :: s, r')
      else if e = '/' then some ('/' :: s, r')
      else if e = 'n' then some ('\n' :: s, r')
      else if e = 't' then some ('\t' :: s, r')
      else if e = 'r' then some ('\r' :: s, r')
      else none
  | c :: r =>
    match parseStrBody r with
    | none => none
    | some (s, r') => some (c :: s, r')

def parseStringLit : List Char → Option (List Char × List Char)
  | '"' :: r => parseStrBody r
  | _ => none

def parseDigitsAux : List Char → Nat → Nat × List Char
  | c :: r, acc => if c.isDigit then parseDigitsAux r (acc * 10 + (c.toNat - 48)) else (acc, c :: r)
  | [], acc => (acc, [])

def parseNum : List Char → Option (Int × List Char)
  | '-' :: c :: r =>
    if c.isDigit then
      some (-(Int.ofNat (parseDigitsAux (c :: r) 0).1), (parseDigitsAux (c :: r) 0).2)
    else none
  | c :: r =>
    if c.isDigit then
      some (Int.ofNat (parseDigitsAux (c :: r) 0).1, (parseDigitsAux (c :: r) 0).2)
    else none
  | [] => none

def parseVal (s : List Char) : Option (JVal × List Char) :=
  match s with
  | '"' :: _ =>
    match parseStringLit s with
    | none => none
    | some (str, r) => some (.jstr str, r)
  | 't' :: 'r' :: 'u' :: 'e' :: r => some (.jbool true, r)
  | 'f' :: 'a' :: 'l' :: 's' :: 'e' :: r => some (.jbool false, r)
  | 'n' :: 'u' :: 'l' :: 'l' :: r => some (.jnull, r)
  | _ =>
    match parseNum s with
    | none => none
    | some (n, r) => some (.jnum n, r)

def parseFieldsAux : Nat → List Char → Option (List (List Char × JVal) × List Char)
  | 0, _ => none
  | fuel + 1, s =>
    match parseStringLit s with
    | none => none
    | some (k, r1) =>
      match r1 with
      | ':' :: r2 =>
        match parseVal r2 with
        | none => none
        | some (v, r3) =>
          match r3 with
          | ',' :: r4 =>
            match parseFieldsAux fuel r4 with
            | none => none
            | some (fs, r5) => some ((k, v) :: fs, r5)
          | '}' :: r4 => some ([(k, v)], r4)
          | _ => none
      | _ => none

def parseJsonObj (s : List Char) : Option (List (List Char × JVal)) :=
  match s with
  | '{' :: '}' :: r => if r = [] then some [] else none
  | '{' :: r =>
    match parseFieldsAux (r.length + 1) r with
    | none => none
    | some (fs, r') => if r' = [] then some fs else none
  | _ => none

/-- Property access `data.k` (last duplicate key wins, missing keys are
`undefined`). -/
def getField (fields : List (List Char × JVal)) (k : List Char) : JVal :=
  match (fields.filter (fun f => f.1 = k)).getLast? with
  | some f => f.2
  | none => .jundefined

/-- JavaScript string coercion, as in `fullResponse += data.content`. -/
def jToString : JVal → List Char
  | .jstr s => s
  | .jnum n => (toString n).toList
  | .jbool true => ('t' :: 'r' :: 'u' :: 'e' :: [])
  | .jbool false => ('f' :: 'a' :: 'l' :: 's' :: 'e' :: [])
  | .jnull => ('n' :: 'u' :: 'l' :: 'l' :: [])
  | .jundefined => ('u' :: 'n' :: 'd' :: 'e' :: 'f' :: 'i' :: 'n' :: 'e' :: 'd' :: [])

/-- Decoded `StreamEvent` records (the tagged union dispatched on
`data.type`). -/
inductive StreamEvent where
  | content (s : List Char)
  | annotationEv (url : List Char)
  | imageGenerated (url prompt : List Char)
  | audioGenerated (url text : List Char)
  | doneEv (messageId conversationId : JVal) (title : JVal)
  | errorEv (msg : List Char)
deriving DecidableEq, Repr

def eventOfJson (fields : List (List Char × JVal)) : Option StreamEvent :=
  let ty := getField fields ("type".toList)
  if ty = .jstr ("content".toList) then
    some (.content (jToString (getField fields ("content".toList))))
  else if ty = .jstr ("annotation".toList) then
    some (.annotationEv (jToString (getField fields ("url".toList))))
  else if ty = .jstr ("image_generated".toList) then
    some (.imageGenerated (jToString (getField fields ("url".toList)))
      (jToString (getField fields ("prompt".toList))))
  else if ty = .jstr ("audio_generated".toList) then
    some (.audioGenerated (jToString (getField fields ("url".toList)))
      (jToString (getField fields ("text".toList))))
  else if ty = .jstr ("done".toList) then
    some (.doneEv (getField fields ("message_id".toList))
      (getField fields ("conversation_id".toList)) (getField fields ("title".toList)))
  else if ty = .jstr ("error".toList) then
    some (.errorEv (jToString (getField fields ("error".toList))))
  else none

def parseDataLine (payload : List Char) : Option StreamEvent :=
  match parseJsonObj payload with
  | none => none
  | some fields => eventOfJson fields

/-- One line of a frame: only `data: `-tagged lines carry an event;
malformed JSON yields `none` (caught and skipped in the loop). -/
def lineEvent (line : List Char) : Option StreamEvent :=
  if dataTag.isPrefixOf line then parseDataLine (line.drop 6) else none

def frameEvents (frame : List Char) : List StreamEvent :=
  (splitLines frame).filterMap lineEvent

/-! ## The incremental decode / split / parse pipeline (chat.js 258-353)

Each iteration of `while (true)` appends the decoded chunk to `buffer`,
splits on `'\n\n'`, keeps the trailing partial frame (`events.pop()`),
and decodes each complete frame's `data: ` lines into events. -/

structure SSEParseState where
  pend : List Nat
  buffer : List Char
  events : List StreamEvent
deriving DecidableEq, Repr

def initSSEParseState : SSEParseState := ⟨[], [], []⟩

def processChunk (st : SSEParseState) (chunk : List Nat) : SSEParseState :=
  let dec := utf8DecodeChunk st.pend chunk
  let parts := splitNN (st.buffer ++ dec.2)
  { pend := dec.1
    buffer := parts.getLastD []
    events := st.events ++ (parts.dropLast.map frameEvents).flatten }

def processChunks (chunks : List (List Nat)) : SSEParseState :=
  chunks.foldl processChunk initSSEParseState

theorem processChunk_append (st : SSEParseState) (c1 c2 : List Nat) :
    processChunk (processChunk st c1) c2 = processChunk st (c1 ++ c2) := by
  simp only [processChunk, utf8DecodeChunk_append]
  have hsplit := splitNN_append (st.buffer ++ (utf8DecodeChunk st.pend c1).2)
    (utf8DecodeChunk (utf8DecodeChunk st.pend c1).1 c2).2
  rw [SSEParseState.mk.injEq]
  refine ⟨rfl, ?_, ?_⟩
  · rw [← List.append_assoc, hsplit,
      getLastD_append_right _ (splitNN_ne_nil _)]
  · rw [← List.append_assoc, hsplit,
      dropLast_append_right _ (splitNN_ne_nil _)]
    simp [List.append_assoc]

theorem processChunks_foldl (chunks : List (List Nat)) (st : SSEParseState) (c : List Nat) :
    chunks.foldl processChunk (processChunk st c) = processChunk st (c ++ chunks.flatten) := by
  induction chunks generalizing st c with
  | nil => simp
  | cons d rest ih =>
    rw [List.foldl_cons, processChunk_append, ih, List.flatten_cons, List.append_assoc]

/-- C1.  For every finite byte stream of SSE frames and every partition of
it into successive chunks (including splits mid-UTF-8-codepoint, mid-frame
and mid-JSON), feeding the chunks one at a time through the incremental
decode/split/parse loop yields the same ordered sequence of decoded
`StreamEvent` records — and the same residual buffer and decoder state —
as feeding the entire stream as one chunk. -/
theorem processChunks_chunking_invariant (chunks : List (List Nat)) :
    processChunks chunks = processChunks [chunks.flatten] := by
  cases chunks with
  | nil =>
    show initSSEParseState = processChunk initSSEParseState []
    rfl
  | cons c rest =>
    show List.foldl processChunk (processChunk initSSEParseState c) rest =
      processChunk initSSEParseState (c :: rest).flatten
    rw [processChunks_foldl, List.flatten_cons]

/-! ## The streaming turn: buffer, throttled rendering, thinking state

Model of the event dispatch and rendering machinery of one assistant
turn (chat.js lines 205-353): the `fullResponse` accumulator, the
`scheduleRender` throttle closure (lines 218-256) with its
`renderPending` / `lastRenderTime` / `lastRenderedContentLength` state,
the `<think>` detection flags (lines 281-292), and the side effects of
the other event kinds.  The markdown renderer `utils.parseMarkdown` is
external and passed in as an abstract function `md`; `setTimeout`
deadlines and timer firings are explicit actions so that every
interleaving the event loop can produce is covered. -/

def containsSub (sub : List Char) : List Char → Bool
  | [] => sub.isEmpty
  | c :: rest => sub.isPrefixOf (c :: rest) || containsSub sub rest

inductive Notif where
  | info (s : List Char)
  | errorN (s : List Char)
deriving DecidableEq, Repr

inductive Artifact where
  | imageNode (url prompt : List Char)
  | audioNode (url text : List Char)
deriving DecidableEq, Repr

def RENDER_THROTTLE_MS : Nat := 50

structure LoopState where
  now : Nat
  fullResponse : List Char
  displayed : List Char
  lastRenderTime : Nat
  lastRenderedContentLength : Nat
  renderPending : Bool
  timers : List Nat
  renderLog : List Nat
  isThinking : Bool
  thinkingClosed : Bool
  annotationUrl : Option (List Char)
  messageId : JVal
  conversationId : JVal
  toasts : List Notif
  artifacts : List Artifact
  readerActive : Bool
deriving DecidableEq, Repr

def initLoopState (t0 : Nat) : LoopState :=
  { now := t0, fullResponse := [], displayed := [], lastRenderTime := 0,
    lastRenderedContentLength := 0, renderPending := false, timers := [],
    renderLog := [], isThinking := false, thinkingClosed := false,
    annotationUrl := none, messageId := .jnull, conversationId := .jnull,
    toasts := [], artifacts := [], readerActive := true }

/-- Body of the `render` closure (chat.js lines 226-246), executing at
time `t`: re-checks that content changed, replaces the sink content with
the markdown rendering of the full buffer, stamps `lastRenderTime` /
`lastRenderedContentLength`, then clears the pending flag. -/
def renderBody (md : List Char → List Char) (t : Nat) (st : LoopState) : LoopState :=
  if st.fullResponse.length ≠ st.lastRenderedContentLength then
    { st with displayed := md st.fullResponse,
              lastRenderTime := t,
              lastRenderedContentLength := st.fullResponse.length,
              renderLog := st.renderLog ++ [t],
              renderPending := false }
  else { st with renderPending := false }

/-- `scheduleRender` (chat.js lines 218-256): skip if nothing new or a
render is already pending; render immediately when the throttle interval
has elapsed, otherwise register one deferred render via `setTimeout`. -/
def scheduleRender (md : List Char → List Char) (t : Nat) (st : LoopState) : LoopState :=
  if st.fullResponse.length = st.lastRenderedContentLength then st
  else if st.renderPending then st
  else if RENDER_THROTTLE_MS ≤ t - st.lastRenderTime then renderBody md t st
  else
    { st with renderPending := true,
              timers := st.timers ++ [t + (RENDER_THROTTLE_MS - (t - st.lastRenderTime))] }

def thinkOpenMarker : List Char := "<think".toList

def thinkCloseMarker : List Char := "</think>".toList

/-- Thinking-state detection on the grown buffer (chat.js lines 282-292):
guarded by `!thinkingClosed`; sets `isThinking` on sight of `<think`,
and permanently closes on sight of `</think>`. -/
def thinkUpdate (st : LoopState) : LoopState :=
  if st.thinkingClosed then st
  else
    let stA :=
      if containsSub thinkOpenMarker st.fullResponse && !st.isThinking then
        { st with isThinking := true }
      else st
    if containsSub thinkCloseMarker stA.fullResponse then
      { stA with isThinking := false, thinkingClosed := true }
    else stA

/-- Event dispatch of the read loop (chat.js lines 276-346). -/
def handleEvent (md : List Char → List Char) (t : Nat) (st : LoopState)
    (e : StreamEvent) : LoopState :=
  match e with
  | .content s =>
    scheduleRender md t (thinkUpdate { st with fullResponse := st.fullResponse ++ s })
  | .annotationEv url => { st with annotationUrl := some url }
  | .imageGenerated url prompt =>
    { st with artifacts := st.artifacts ++ [.imageNode url prompt] }
  | .audioGenerated url text =>
    { st with artifacts := st.artifacts ++ [.audioNode url text] }
  | .doneEv mid cid _ => { st with messageId := mid, conversationId := cid }
  | .errorEv m => { st with toasts := st.toasts ++ [.errorN m] }

/-- Externally visible occurrences during a turn: an event arriving from
the stream at time `t`, a deferred-render timer firing at time `t`, or
the user pressing Stop (`cancelRequest`) at time `t`. -/
inductive TurnAct where
  | recv (t : Nat) (e : StreamEvent)
  | fire (t : Nat)
  | cancel (t : Nat)
deriving DecidableEq, Repr

def stepAct (md : List Char → List Char) (st : LoopState) : TurnAct → LoopState
  | .recv t e => handleEvent md t { st with now := t } e
  | .fire t => renderBody md t { st with now := t, timers := st.timers.tail }
  | .cancel t =>
    { st with now := t, readerActive := false,
              toasts := st.toasts ++ [.info ("Generation stopped".toList)] }

/-- Which actions the platform can actually deliver from state `st`:
time never goes backwards, stream events arrive only while the reader
has not been cancelled, and a deferred render fires no earlier than its
`setTimeout` deadline. -/
def okActB (st : LoopState) : TurnAct → Bool
  | .recv t _ => decide (st.now ≤ t) && st.readerActive
  | .fire t =>
    decide (st.now ≤ t) &&
      (match st.timers with
       | [] => false
       | d :: _ => decide (d ≤ t))
  | .cancel t => decide (st.now ≤ t) && st.readerActive

def ValidActsB (md : List Char → List Char) (st : LoopState) : List TurnAct → Bool
  | [] => true
  | a :: as => okActB st a && ValidActsB md (stepAct md st a) as

def runActs (md : List Char → List Char) (st : LoopState) (acts : List TurnAct) : LoopState :=
  acts.foldl (stepAct md) st

/-- The unconditional final render after the read loop ends
(chat.js line 356): `contentEl.innerHTML = utils.parseMarkdown(fullResponse)`. -/
def finalRender (md : List Char → List Char) (st : LoopState) : LoopState :=
  { st with displayed := md st.fullResponse }

/-- Concatenation, in arrival order, of the `content` payloads of a turn. -/
def contentsOf : List TurnAct → List Char
  | [] => []
  | .recv _ (.content s) :: as => s ++ contentsOf as
  | _ :: as => contentsOf as

def actContent : TurnAct → List Char
  | .recv _ (.content s) => s
  | _ => []

theorem renderBody_fullResponse (md : List Char → List Char) (t : Nat) (st : LoopState) :
    (renderBody md t st).fullResponse = st.fullResponse := by
  unfold renderBody
  split <;> rfl

theorem scheduleRender_fullResponse (md : List Char → List Char) (t : Nat) (st : LoopState) :
    (scheduleRender md t st).fullResponse = st.fullResponse := by
  unfold scheduleRender
  split
  · rfl
  split
  · rfl
  split
  · exact renderBody_fullResponse md t st
  · rfl

/-- `thinkUpdate` only touches the two thinking flags. -/
theorem thinkUpdate_fields (st : LoopState) :
    (thinkUpdate st).now = st.now ∧
      (thinkUpdate st).fullResponse = st.fullResponse ∧
      (thinkUpdate st).displayed = st.displayed ∧
      (thinkUpdate st).lastRenderTime = st.lastRenderTime ∧
      (thinkUpdate st).lastRenderedContentLength = st.lastRenderedContentLength ∧
      (thinkUpdate st).renderPending = st.renderPending ∧
      (thinkUpdate st).timers = st.timers ∧
      (thinkUpdate st).renderLog = st.renderLog ∧
      (thinkUpdate st).annotationUrl = st.annotationUrl ∧
      (thinkUpdate st).messageId = st.messageId ∧
      (thinkUpdate st).conversationId = st.conversationId ∧
      (thinkUpdate st).toasts = st.toasts ∧
      (thinkUpdate st).artifacts = st.artifacts ∧
      (thinkUpdate st).readerActive = st.readerActive := by
  unfold thinkUpdate
  split
  · simp
  · split <;> (dsimp only) <;> split <;> simp

theorem stepAct_fullResponse (md : List Char → List Char) (st : LoopState) (a : TurnAct) :
    (stepAct md st a).fullResponse = st.fullResponse ++ actContent a := by
  cases a with
  | recv t e =>
    cases e with
    | content s =>
      show (scheduleRender md t (thinkUpdate _)).fullResponse = _
      rw [scheduleRender_fullResponse, (thinkUpdate_fields _).2.1]
      rfl
    | annotationEv url => simp [stepAct, handleEvent, actContent]
    | imageGenerated url prompt => simp [stepAct, handleEvent, actContent]
    | audioGenerated url text => simp [stepAct, handleEvent, actContent]
    | doneEv mid cid title => simp [stepAct, handleEvent, actContent]
    | errorEv m => simp [stepAct, handleEvent, actContent]
  | fire t => simp [stepAct, renderBody_fullResponse, actContent]
  | cancel t => simp [stepAct, actContent]

theorem runActs_fullResponse (md : List Char → List Char) (st : LoopState)
    (acts : List TurnAct) :
    (runActs md st acts).fullResponse = st.fullResponse ++ contentsOf acts := by
  induction acts generalizing st with
  | nil => simp [runActs, contentsOf]
  | cons a as ih =>
    show (runActs md (stepAct md st a) as).fullResponse = _
    rw [ih, stepAct_fullResponse]
    cases a with
    | recv t e => cases e <;> simp [actContent, contentsOf]
    | fire t => simp [actContent, contentsOf]
    | cancel t => simp [actContent, contentsOf]

/-- C2.  For every sequence of `Content` events received in one turn —
and every interleaving of timer firings the throttle may have produced —
the response buffer is never mutated except by appending the decoded
`content` fragments in arrival order, and the text rendered at the end
of the turn is the markdown rendering of their exact concatenation. -/
theorem finalRender_displays_all_content (md : List Char → List Char) (t0 : Nat)
    (acts : List TurnAct) :
    (runActs md (initLoopState t0) acts).fullResponse = contentsOf acts ∧
      (finalRender md (runActs md (initLoopState t0) acts)).displayed =
        md (contentsOf acts) := by
  have h := runActs_fullResponse md (initLoopState t0) acts
  rw [show (initLoopState t0).fullResponse = [] from rfl, List.nil_append] at h
  exact ⟨h, by simp [finalRender, h]⟩

/-- C3.  If the stream ends while a deferred render is still pending
(`renderPending = true`, its timer not yet fired), the unconditional
final render still reads the up-to-the-moment buffer, so the displayed
output reflects all received content — no trailing fragment is dropped. -/
theorem pending_tail_not_dropped (md : List Char → List Char) (t0 : Nat)
    (acts : List TurnAct)
    (hpend : (runActs md (initLoopState t0) acts).renderPending = true) :
    (finalRender md (runActs md (initLoopState t0) acts)).displayed =
      md (contentsOf acts) :=
  (finalRender_displays_all_content md t0 acts).2

/-- Witness for C3: a burst of two `Content` events 10 ms apart leaves a
deferred render pending, and the final render still shows both fragments. -/
theorem pending_tail_not_dropped_witness :
    (runActs (fun s => s) (initLoopState 100)
        [.recv 100 (.content ('a' :: [])), .recv 110 (.content ('b' :: []))]).renderPending
        = true ∧
      (finalRender (fun s => s) (runActs (fun s => s) (initLoopState 100)
        [.recv 100 (.content ('a' :: [])), .recv 110 (.content ('b' :: []))])).displayed =
        (fun s => s) (contentsOf
          [.recv 100 (.content ('a' :: [])), .recv 110 (.content ('b' :: []))]) :=
  ⟨by decide, pending_tail_not_dropped (fun s => s) 100 _ (by decide)⟩

/-! ## The render throttle bound (C4) -/

def throttleSep (a b : Nat) : Prop := a + RENDER_THROTTLE_MS ≤ b

theorem getLast?_eq_getLastD {α : Type} {l : List α} (h : l ≠ []) (d : α) :
    l.getLast? = some (l.getLastD d) := by
  match l with
  | [] => exact absurd rfl h
  | [a] => rfl
  | a :: b :: r =>
    rw [List.getLast?_cons_cons, getLastD_cons_ne_nil a (by simp) d]
    exact getLast?_eq_getLastD (by simp) d

/-- Throttle invariant maintained across the turn: the completed
throttled renders are at least `RENDER_THROTTLE_MS` apart,
`lastRenderTime` stamps the last of them, time is monotone, and the
pending flag tracks exactly one outstanding `setTimeout` deadline at
`lastRenderTime + RENDER_THROTTLE_MS`. -/
def ThrottleInv (st : LoopState) : Prop :=
  List.Chain' throttleSep st.renderLog ∧
    st.lastRenderTime = st.renderLog.getLastD 0 ∧
    st.lastRenderTime ≤ st.now ∧
    (st.renderPending = true → st.timers = [st.lastRenderTime + RENDER_THROTTLE_MS]) ∧
    (st.renderPending = false → st.timers = [])

theorem renderLog_chain_concat {log : List Nat} {lrt t : Nat}
    (hchain : List.Chain' throttleSep log) (hlast : lrt = log.getLastD 0)
    (ht : lrt + RENDER_THROTTLE_MS ≤ t) :
    List.Chain' throttleSep (log ++ [t]) := by
  rw [List.chain'_append]
  refine ⟨hchain, List.chain'_singleton t, ?_⟩
  intro x hx y hy
  have hne : log ≠ [] := by
    intro hnil
    rw [hnil] at hx
    simp at hx
  rw [getLast?_eq_getLastD hne 0, Option.mem_def, Option.some.injEq] at hx
  rw [show ([t] : List Nat).head? = some t from rfl, Option.mem_def, Option.some.injEq] at hy
  show x + RENDER_THROTTLE_MS ≤ y
  omega

theorem renderBody_inv (md : List Char → List Char) (t : Nat) (st : LoopState)
    (hchain : List.Chain' throttleSep st.renderLog)
    (hlast : st.lastRenderTime = st.renderLog.getLastD 0)
    (hlrt : st.lastRenderTime + RENDER_THROTTLE_MS ≤ t)
    (hnow : st.now = t) (htimers : st.timers = []) :
    ThrottleInv (renderBody md t st) := by
  unfold renderBody ThrottleInv
  split
  · refine ⟨renderLog_chain_concat hchain hlast hlrt, ?_, ?_, ?_, ?_⟩
    · show t = (st.renderLog ++ [t]).getLastD 0
      rw [getLastD_append_right st.renderLog (by simp) 0]
      rfl
    · show t ≤ st.now
      omega
    · intro hc
      simp at hc
    · intro _
      exact htimers
  · refine ⟨hchain, hlast, ?_, ?_, ?_⟩
    · show st.lastRenderTime ≤ st.now
      omega
    · intro hc
      simp at hc
    · intro _
      exact htimers

theorem scheduleRender_inv (md : List Char → List Char) (t : Nat) (st : LoopState)
    (hchain : List.Chain' throttleSep st.renderLog)
    (hlast : st.lastRenderTime = st.renderLog.getLastD 0)
    (hnow : st.now = t)
    (hlrtnow : st.lastRenderTime ≤ t)
    (hpt : st.renderPending = true → st.timers = [st.lastRenderTime + RENDER_THROTTLE_MS])
    (hpf : st.renderPending = false → st.timers = []) :
    ThrottleInv (scheduleRender md t st) := by
  unfold scheduleRender
  split
  · exact ⟨hchain, hlast, by omega, hpt, hpf⟩
  split
  · exact ⟨hchain, hlast, by omega, hpt, hpf⟩
  split
  · rename_i hlen hpend helapsed
    refine renderBody_inv md t st hchain hlast (by omega) hnow ?_
    exact hpf (by simpa using hpend)
  · rename_i hlen hpend helapsed
    refine ⟨hchain, hlast, ?_, ?_, ?_⟩
    · show st.lastRenderTime ≤ st.now
      omega
    · intro _
      show st.timers ++ [t + (RENDER_THROTTLE_MS - (t - st.lastRenderTime))] = _
      rw [hpf (by simpa using hpend)]
      have : t + (RENDER_THROTTLE_MS - (t - st.lastRenderTime)) =
          st.lastRenderTime + RENDER_THROTTLE_MS := by omega
      rw [this]
      rfl
    · intro hc
      simp at hc

theorem stepAct_inv (md : List Char → List Char) (st : LoopState) (a : TurnAct)
    (hinv : ThrottleInv st) (hok : okActB st a = true) :
    ThrottleInv (stepAct md st a) := by
  obtain ⟨hchain, hlast, hnow, hpt, hpf⟩ := hinv
  cases a with
  | recv t e =>
    have hle : st.now ≤ t := by
      simp [okActB] at hok
      exact hok.1
    cases e with
    | content s =>
      show ThrottleInv (scheduleRender md t
        (thinkUpdate { st with now := t, fullResponse := st.fullResponse ++ s }))
      have hf := thinkUpdate_fields { st with now := t, fullResponse := st.fullResponse ++ s }
      refine scheduleRender_inv md t _ ?_ ?_ ?_ ?_ ?_ ?_
      · rw [hf.2.2.2.2.2.2.2.1]
        exact hchain
      · rw [hf.2.2.2.1, hf.2.2.2.2.2.2.2.1]
        exact hlast
      · rw [hf.1]
      · rw [hf.2.2.2.1]
        show st.lastRenderTime ≤ t
        omega
      · rw [hf.2.2.2.2.2.1, hf.2.2.2.2.2.2.1, hf.2.2.2.1]
        exact hpt
      · rw [hf.2.2.2.2.2.1, hf.2.2.2.2.2.2.1]
        exact hpf
    | annotationEv url =>
      refine ⟨hchain, hlast, ?_, hpt, hpf⟩
      show st.lastRenderTime ≤ t
      omega
    | imageGenerated url prompt =>
      refine ⟨hchain, hlast, ?_, hpt, hpf⟩
      show st.lastRenderTime ≤ t
      omega
    | audioGenerated url text =>
      refine ⟨hchain, hlast, ?_, hpt, hpf⟩
      show st.lastRenderTime ≤ t
      omega
    | doneEv mid cid title =>
      refine ⟨hchain, hlast, ?_, hpt, hpf⟩
      show st.lastRenderTime ≤ t
      omega
    | errorEv m =>
      refine ⟨hchain, hlast, ?_, hpt, hpf⟩
      show st.lastRenderTime ≤ t
      omega
  | fire t =>
    by_cases hp : st.renderPending = true
    · have htim := hpt hp
      simp only [okActB, htim, Bool.and_eq_true, decide_eq_true_eq] at hok
      refine renderBody_inv md t _ hchain hlast ?_ rfl ?_
      · show st.lastRenderTime + RENDER_THROTTLE_MS ≤ t
        exact hok.2
      · show st.timers.tail = []
        rw [htim]
        rfl
    · have hp' : st.renderPending = false := by
        revert hp
        cases st.renderPending <;> simp
      have htim := hpf hp'
      simp [okActB, htim] at hok
  | cancel t =>
    simp [okActB] at hok
    refine ⟨hchain, hlast, ?_, hpt, hpf⟩
    show st.lastRenderTime ≤ t
    omega

theorem runActs_inv (md : List Char → List Char) (st : LoopState) (acts : List TurnAct)
    (hv : ValidActsB md st acts = true) (hinv : ThrottleInv st) :
    ThrottleInv (runActs md st acts) := by
  induction acts generalizing st with
  | nil => exact hinv
  | cons a as ih =>
    simp only [ValidActsB, Bool.and_eq_true] at hv
    exact ih (stepAct md st a) hv.2 (stepAct_inv md st a hinv hv.1)

/-- C4.  Under any platform-deliverable schedule of event arrivals and
timer firings, the completed throttled renders of a turn are pairwise at
least `RENDER_THROTTLE_MS` (50 ms) apart — so no interval shorter than
the configured minimum contains two of them (only the unconditional
final render after stream end bypasses this) — and the pending flag
keeps at most one deferred render outstanding at any time. -/
theorem throttle_bound (md : List Char → List Char) (t0 : Nat) (acts : List TurnAct)
    (hv : ValidActsB md (initLoopState t0) acts = true) :
    List.Pairwise throttleSep (runActs md (initLoopState t0) acts).renderLog ∧
      (runActs md (initLoopState t0) acts).timers.length ≤ 1 := by
  have hinit : ThrottleInv (initLoopState t0) := by
    refine ⟨List.chain'_nil, rfl, ?_, ?_, ?_⟩
    · show 0 ≤ t0
      omega
    · intro h
      simp [initLoopState] at h
    · intro _
      rfl
  have hinv := runActs_inv md (initLoopState t0) acts hv hinit
  obtain ⟨hchain, _, _, hpt, hpf⟩ := hinv
  constructor
  · haveI : IsTrans Nat throttleSep :=
      ⟨fun a b c h1 h2 => by unfold throttleSep at h1 h2 ⊢; omega⟩
    exact List.chain'_iff_pairwise.mp hchain
  · cases hp : (runActs md (initLoopState t0) acts).renderPending
    · rw [hpf hp]
      simp
    · rw [hpt hp]
      simp

/-- Witness for C4: an immediate render at 100 ms, a deferred render
scheduled at 110 ms and fired at its 150 ms deadline. -/
theorem throttle_bound_witness :
    ValidActsB (fun s => s) (initLoopState 100)
        [.recv 100 (.content ('a' :: [])), .recv 110 (.content ('b' :: [])),
          .fire 150] = true ∧
      (List.Pairwise throttleSep
          (runActs (fun s => s) (initLoopState 100)
            [.recv 100 (.content ('a' :: [])), .recv 110 (.content ('b' :: [])),
              .fire 150]).renderLog ∧
        (runActs (fun s => s) (initLoopState 100)
            [.recv 100 (.content ('a' :: [])), .recv 110 (.content ('b' :: [])),
              .fire 150]).timers.length ≤ 1) :=
  ⟨by decide, throttle_bound (fun s => s) 100 _ (by decide)⟩

/-! ## The thinking-state machine (C7) -/

theorem renderBody_flags (md : List Char → List Char) (t : Nat) (st : LoopState) :
    (renderBody md t st).isThinking = st.isThinking ∧
      (renderBody md t st).thinkingClosed = st.thinkingClosed := by
  unfold renderBody
  split <;> exact ⟨rfl, rfl⟩

theorem scheduleRender_flags (md : List Char → List Char) (t : Nat) (st : LoopState) :
    (scheduleRender md t st).isThinking = st.isThinking ∧
      (scheduleRender md t st).thinkingClosed = st.thinkingClosed := by
  unfold scheduleRender
  split
  · exact ⟨rfl, rfl⟩
  split
  · exact ⟨rfl, rfl⟩
  split
  · exact renderBody_flags md t st
  · exact ⟨rfl, rfl⟩

theorem thinkUpdate_of_closed {st : LoopState} (hc : st.thinkingClosed = true) :
    thinkUpdate st = st := by
  unfold thinkUpdate
  rw [if_pos hc]

theorem thinkUpdate_opens {st : LoopState} (hc : st.thinkingClosed = false)
    (hopen : containsSub thinkOpenMarker st.fullResponse = true)
    (hclose : containsSub thinkCloseMarker st.fullResponse = false) :
    (thinkUpdate st).isThinking = true ∧ (thinkUpdate st).thinkingClosed = false := by
  unfold thinkUpdate
  rw [if_neg (by rw [hc]; simp)]
  dsimp only
  by_cases hcond : (containsSub thinkOpenMarker st.fullResponse && !st.isThinking) = true
  · rw [if_pos hcond]
    rw [if_neg (show ¬(containsSub thinkCloseMarker
        ({ st with isThinking := true } : LoopState).fullResponse = true) by
      show ¬(containsSub thinkCloseMarker st.fullResponse = true)
      rw [hclose]
      simp)]
    exact ⟨rfl, hc⟩
  · rw [if_neg hcond]
    rw [if_neg (show ¬(containsSub thinkCloseMarker st.fullResponse = true) by
      rw [hclose]; simp)]
    refine ⟨?_, hc⟩
    revert hcond
    rw [hopen]
    cases st.isThinking <;> simp

theorem thinkUpdate_closes {st : LoopState} (hc : st.thinkingClosed = false)
    (hclose : containsSub thinkCloseMarker st.fullResponse = true) :
    (thinkUpdate st).thinkingClosed = true ∧ (thinkUpdate st).isThinking = false := by
  unfold thinkUpdate
  rw [if_neg (by rw [hc]; simp)]
  dsimp only
  by_cases hcond : (containsSub thinkOpenMarker st.fullResponse && !st.isThinking) = true
  · rw [if_pos hcond]
    rw [if_pos (show containsSub thinkCloseMarker
        ({ st with isThinking := true } : LoopState).fullResponse = true from hclose)]
    exact ⟨rfl, rfl⟩
  · rw [if_neg hcond, if_pos hclose]
    exact ⟨rfl, rfl⟩

theorem stepAct_closed_stays (md : List Char → List Char) (st : LoopState) (a : TurnAct)
    (hc : st.thinkingClosed = true) (ht : st.isThinking = false) :
    (stepAct md st a).thinkingClosed = true ∧ (stepAct md st a).isThinking = false := by
  cases a with
  | recv t e =>
    cases e with
    | content s =>
      have hcl : ({ st with now := t, fullResponse := st.fullResponse ++ s }
          : LoopState).thinkingClosed = true := hc
      have hfl := scheduleRender_flags md t (thinkUpdate
        { st with now := t, fullResponse := st.fullResponse ++ s })
      constructor
      · show (scheduleRender md t (thinkUpdate
            { st with now := t, fullResponse := st.fullResponse ++ s })).thinkingClosed = true
        rw [hfl.2, thinkUpdate_of_closed hcl]
        exact hc
      · show (scheduleRender md t (thinkUpdate
            { st with now := t, fullResponse := st.fullResponse ++ s })).isThinking = false
        rw [hfl.1, thinkUpdate_of_closed hcl]
        exact ht
    | annotationEv url => exact ⟨hc, ht⟩
    | imageGenerated url prompt => exact ⟨hc, ht⟩
    | audioGenerated url text => exact ⟨hc, ht⟩
    | doneEv mid cid title => exact ⟨hc, ht⟩
    | errorEv m => exact ⟨hc, ht⟩
  | fire t =>
    have hfl := renderBody_flags md t { st with now := t, timers := st.timers.tail }
    constructor
    · show (renderBody md t { st with now := t, timers := st.timers.tail }).thinkingClosed = true
      rw [hfl.2]
      exact hc
    · show (renderBody md t { st with now := t, timers := st.timers.tail }).isThinking = false
      rw [hfl.1]
      exact ht
  | cancel t => exact ⟨hc, ht⟩

theorem runActs_closed_stays (md : List Char → List Char) (st : LoopState)
    (acts : List TurnAct) (hc : st.thinkingClosed = true) (ht : st.isThinking = false) :
    (runActs md st acts).thinkingClosed = true ∧ (runActs md st acts).isThinking = false := by
  induction acts generalizing st with
  | nil => exact ⟨hc, ht⟩
  | cons a as ih =>
    have hstep := stepAct_closed_stays md st a hc ht
    exact ih (stepAct md st a) hstep.1 hstep.2

/-- C7.  The thinking-state machine: (i) `Closed` is terminal for the
turn — once the closing marker has been seen, no later events (including
further `<think` openers) re-enter `Thinking`; (ii) `Idle → Thinking` on
first sight of an opening `<think` marker; (iii) `Thinking → Closed` on
first sight of the closing `</think>` marker. -/
theorem thinking_state_machine (md : List Char → List Char) (st : LoopState)
    (acts : List TurnAct) (t : Nat) (s : List Char) :
    (st.thinkingClosed = true → st.isThinking = false →
      (runActs md st acts).thinkingClosed = true ∧
        (runActs md st acts).isThinking = false) ∧
    (st.thinkingClosed = false →
      containsSub thinkOpenMarker (st.fullResponse ++ s) = true →
      containsSub thinkCloseMarker (st.fullResponse ++ s) = false →
      (stepAct md st (.recv t (.content s))).isThinking = true ∧
        (stepAct md st (.recv t (.content s))).thinkingClosed = false) ∧
    (st.thinkingClosed = false →
      containsSub thinkCloseMarker (st.fullResponse ++ s) = true →
      (stepAct md st (.recv t (.content s))).thinkingClosed = true ∧
        (stepAct md st (.recv t (.content s))).isThinking = false) := by
  refine ⟨fun hc ht => runActs_closed_stays md st acts hc ht, ?_, ?_⟩
  · intro hc hopen hclose
    have hfl := scheduleRender_flags md t (thinkUpdate
      { st with now := t, fullResponse := st.fullResponse ++ s })
    have hup := thinkUpdate_opens
      (show ({ st with now := t, fullResponse := st.fullResponse ++ s }
          : LoopState).thinkingClosed = false from hc)
      (show containsSub thinkOpenMarker
          ({ st with now := t, fullResponse := st.fullResponse ++ s } : LoopState).fullResponse
          = true from hopen)
      (show containsSub thinkCloseMarker
          ({ st with now := t, fullResponse := st.fullResponse ++ s } : LoopState).fullResponse
          = false from hclose)
    constructor
    · show (scheduleRender md t (thinkUpdate
          { st with now := t, fullResponse := st.fullResponse ++ s })).isThinking = true
      rw [hfl.1]
      exact hup.1
    · show (scheduleRender md t (thinkUpdate
          { st with now := t, fullResponse := st.fullResponse ++ s })).thinkingClosed = false
      rw [hfl.2]
      exact hup.2
  · intro hc hclose
    have hfl := scheduleRender_flags md t (thinkUpdate
      { st with now := t, fullResponse := st.fullResponse ++ s })
    have hup := thinkUpdate_closes
      (show ({ st with now := t, fullResponse := st.fullResponse ++ s }
          : LoopState).thinkingClosed = false from hc)
      (show containsSub thinkCloseMarker
          ({ st with now := t, fullResponse := st.fullResponse ++ s } : LoopState).fullResponse
          = true from hclose)
    constructor
    · show (scheduleRender md t (thinkUpdate
          { st with now := t, fullResponse := st.fullResponse ++ s })).thinkingClosed = true
      rw [hfl.2]
      exact hup.1
    · show (scheduleRender md t (thinkUpdate
          { st with now := t, fullResponse := st.fullResponse ++ s })).isThinking = false
      rw [hfl.1]
      exact hup.2

/-- Witness for C7: after `</think>` has closed the region, a later
`<think` opener does not re-enter; a fresh turn enters on `<think` and
closes on `</think>`. -/
theorem thinking_state_machine_witness :
    (((runActs (fun s => s) { initLoopState 0 with thinkingClosed := true }
        [.recv 5 (.content ("<think>x".toList))]).thinkingClosed = true ∧
      (runActs (fun s => s) { initLoopState 0 with thinkingClosed := true }
        [.recv 5 (.content ("<think>x".toList))]).isThinking = false) ∧
      ((stepAct (fun s => s) (initLoopState 0)
          (.recv 5 (.content ("<think>a".toList)))).isThinking = true ∧
        (stepAct (fun s => s) (initLoopState 0)
          (.recv 5 (.content ("<think>a".toList)))).thinkingClosed = false)) ∧
      ((stepAct (fun s => s) (initLoopState 0)
          (.recv 5 (.content ("<think>a</think>".toList)))).thinkingClosed = true ∧
        (stepAct (fun s => s) (initLoopState 0)
          (.recv 5 (.content ("<think>a</think>".toList)))).isThinking = false) :=
  ⟨⟨(thinking_state_machine (fun s => s) { initLoopState 0 with thinkingClosed := true }
      [.recv 5 (.content ("<think>x".toList))] 5 []).1 (by decide) (by decide),
    (thinking_state_machine (fun s => s) (initLoopState 0) [] 5
      ("<think>a".toList)).2.1 (by decide) (by decide) (by decide)⟩,
    (thinking_state_machine (fun s => s) (initLoopState 0) [] 5
      ("<think>a</think>".toList)).2.2 (by decide) (by decide)⟩

/-! ## Cancellation (C5) and resource release (C8), streaming guard (C9)

`cancelRequest` (chat.js lines 427-442), the `catch` clause of
`sendMessage` (lines 413-418) distinguishing `AbortError`, the `finally`
clause (lines 419-424), and the `isStreaming` entry guard (line 95). -/

theorem renderBody_effects (md : List Char → List Char) (t : Nat) (st : LoopState) :
    (renderBody md t st).toasts = st.toasts ∧
      (renderBody md t st).artifacts = st.artifacts ∧
      (renderBody md t st).annotationUrl = st.annotationUrl ∧
      (renderBody md t st).readerActive = st.readerActive := by
  unfold renderBody
  split <;> exact ⟨rfl, rfl, rfl, rfl⟩

/-- After the reader has been cancelled, no valid schedule delivers
further stream events, so the buffer and every stream-derived sink
artifact stay exactly as they were at cancellation time (a still-pending
deferred render may only re-render the already-received buffer). -/
theorem runActs_after_cancel (md : List Char → List Char) (st : LoopState)
    (acts : List TurnAct) (hv : ValidActsB md st acts = true)
    (hr : st.readerActive = false) :
    (runActs md st acts).fullResponse = st.fullResponse ∧
      (runActs md st acts).toasts = st.toasts ∧
      (runActs md st acts).artifacts = st.artifacts ∧
      (runActs md st acts).annotationUrl = st.annotationUrl := by
  induction acts generalizing st with
  | nil => exact ⟨rfl, rfl, rfl, rfl⟩
  | cons a as ih =>
    simp only [ValidActsB, Bool.and_eq_true] at hv
    cases a with
    | recv t e =>
      simp [okActB, hr] at hv
    | fire t =>
      have heff := renderBody_effects md t { st with now := t, timers := st.timers.tail }
      have hfull := renderBody_fullResponse md t { st with now := t, timers := st.timers.tail }
      have := ih (stepAct md st (.fire t)) hv.2 (by
        show (renderBody md t { st with now := t, timers := st.timers.tail }).readerActive = false
        rw [heff.2.2.2]
        exact hr)
      have hrun : runActs md st (TurnAct.fire t :: as) =
          runActs md (stepAct md st (.fire t)) as := rfl
      rw [hrun]
      refine ⟨?_, ?_, ?_, ?_⟩
      · rw [this.1]
        exact hfull
      · rw [this.2.1]
        exact heff.1
      · rw [this.2.2.1]
        exact heff.2.1
      · rw [this.2.2.2]
        exact heff.2.2.1
    | cancel t =>
      simp [okActB, hr] at hv

/-- The two kinds of exception the `catch` clause of `sendMessage` can
see: a deliberate abort (from `cancelRequest`) or a genuine transport
failure. -/
inductive JsError where
  | abortError
  | otherError (msg : List Char)
deriving DecidableEq, Repr

/-- The `catch` clause (chat.js lines 413-418): `AbortError` is ignored;
anything else raises an error notification. -/
def handleSendFailure : JsError → List Notif
  | .abortError => []
  | .otherError m => [.errorN m]

/-- C5.  Cancelling mid-stream stops further chunk reads — after the
`cancel` action no valid schedule changes the buffer or any
stream-derived sink state — and cancellation never produces a failure
notification: the cancel step itself emits only an informational toast,
and the failure handler suppresses the deliberate abort. -/
theorem cancellation_semantics (md : List Char → List Char) (st : LoopState)
    (acts : List TurnAct) (t : Nat) :
    ((stepAct md st (.cancel t)).readerActive = false ∧
      (stepAct md st (.cancel t)).toasts =
        st.toasts ++ [.info ("Generation stopped".toList)]) ∧
    (st.readerActive = false → ValidActsB md st acts = true →
      (runActs md st acts).fullResponse = st.fullResponse ∧
        (runActs md st acts).toasts = st.toasts ∧
        (runActs md st acts).artifacts = st.artifacts ∧
        (runActs md st acts).annotationUrl = st.annotationUrl) ∧
    handleSendFailure .abortError = [] :=
  ⟨⟨rfl, rfl⟩, fun hr hv => runActs_after_cancel md st acts hv hr, rfl⟩

/-- Witness for C5: from a cancelled state the empty (and only) valid
schedule leaves everything untouched. -/
theorem cancellation_semantics_witness :
    (((stepAct (fun s => s) (initLoopState 0) (.cancel 1)).readerActive = false ∧
      (stepAct (fun s => s) (initLoopState 0) (.cancel 1)).toasts =
        (initLoopState 0).toasts ++ [.info ("Generation stopped".toList)]) ∧
    ((runActs (fun s => s) { initLoopState 0 with readerActive := false }
          []).fullResponse = ({ initLoopState 0 with readerActive := false }
          : LoopState).fullResponse ∧
        (runActs (fun s => s) { initLoopState 0 with readerActive := false }
          []).toasts = ({ initLoopState 0 with readerActive := false } : LoopState).toasts ∧
        (runActs (fun s => s) { initLoopState 0 with readerActive := false }
          []).artifacts = ({ initLoopState 0 with readerActive := false }
          : LoopState).artifacts ∧
        (runActs (fun s => s) { initLoopState 0 with readerActive := false }
          []).annotationUrl = ({ initLoopState 0 with readerActive := false }
          : LoopState).annotationUrl) ∧
    handleSendFailure .abortError = []) :=
  ⟨(cancellation_semantics (fun s => s) (initLoopState 0) [] 1).1,
    (cancellation_semantics (fun s => s) { initLoopState 0 with readerActive := false }
      [] 1).2.1 (by decide) (by decide),
    (cancellation_semantics (fun s => s) (initLoopState 0) [] 1).2.2⟩

/-- The `ChatManager` fields owned by a turn: the streaming guard and
the two cancellation handles (`null` modelled as `none`). -/
structure MgrState where
  isStreaming : Bool
  abortController : Option Unit
  streamReader : Option Unit
deriving DecidableEq, Repr

/-- The `finally` clause of `sendMessage` (chat.js lines 419-424). -/
def finallyCleanup (s : MgrState) : MgrState :=
  { s with isStreaming := false, abortController := none, streamReader := none }

/-- `sendMessage`'s try/catch/finally skeleton: whatever the body did to
the manager state on any exit path — completion, failure, or a thrown
error — the `finally` clause runs last. -/
def sendMessageRun (body : MgrState → MgrState) (s : MgrState) : MgrState :=
  finallyCleanup (body s)

/-- `cancelRequest` (chat.js lines 427-442): cancel the reader, abort
the request, clear the guard, emit an informational toast. -/
def cancelRequest (s : MgrState) : MgrState × List Notif :=
  ({ s with streamReader := none, abortController := none, isStreaming := false },
    [.info ("Generation stopped".toList)])

/-- C8.  Every terminal outcome of a turn releases the turn's resources:
after the `finally` clause — on every exit path, whatever the body did —
and likewise after `cancelRequest`, the streaming guard is cleared and
the abort handle and stream-reader reference are `null`. -/
theorem terminal_releases_resources (body : MgrState → MgrState) (s : MgrState) :
    ((sendMessageRun body s).isStreaming = false ∧
      (sendMessageRun body s).abortController = none ∧
      (sendMessageRun body s).streamReader = none) ∧
    ((cancelRequest s).1.isStreaming = false ∧
      (cancelRequest s).1.abortController = none ∧
      (cancelRequest s).1.streamReader = none) :=
  ⟨⟨rfl, rfl, rfl⟩, ⟨rfl, rfl, rfl⟩⟩

/-- The guarded entry of `sendMessage` (chat.js lines 90-95): empty
input returns, and a send while a turn is already streaming returns,
before anything is touched. -/
def sendMessageEntry (s : MgrState) (text : List Char) (uploadedFilesCount : Nat)
    (proceed : MgrState → MgrState × List Notif) : MgrState × List Notif :=
  if text = [] ∧ uploadedFilesCount = 0 then (s, [])
  else if s.isStreaming then (s, [])
  else proceed s

/-- C9.  A send while a turn is already streaming is a no-op: it returns
with the manager state unchanged and no effects, never reaching the body. -/
theorem send_while_streaming_noop (s : MgrState) (text : List Char)
    (uploadedFilesCount : Nat) (proceed : MgrState → MgrState × List Notif)
    (hs : s.isStreaming = true) :
    sendMessageEntry s text uploadedFilesCount proceed = (s, []) := by
  unfold sendMessageEntry
  rw [if_pos hs]
  split
  · rfl
  · rfl

/-- Witness for C9: a non-empty send against a streaming manager leaves
it untouched even though the body would have had effects. -/
theorem send_while_streaming_noop_witness :
    (⟨true, some (), some ()⟩ : MgrState).isStreaming = true ∧
      sendMessageEntry ⟨true, some (), some ()⟩ ("hi".toList) 0
          (fun s => (finallyCleanup s, [.errorN ("x".toList)])) =
        (⟨true, some (), some ()⟩, []) :=
  ⟨by decide, send_while_streaming_noop _ _ _ _ (by decide)⟩

/-! ## The end-of-stream residual flush (C10)

After the read loop and the final render, any residual partial frame
left in `buffer` is flushed (chat.js lines 379-398) — but that flush
dispatches only `content` and `done`. -/

/-- One residual line (chat.js lines 383-396): `content` appends and
re-renders, `done` captures the identifiers, every other decoded event —
and any malformed line — is silently ignored. -/
def flushLine (md : List Char → List Char) (st : LoopState) (line : List Char) : LoopState :=
  if dataTag.isPrefixOf line then
    match parseDataLine (line.drop 6) with
    | some (.content s) =>
      { st with fullResponse := st.fullResponse ++ s,
                displayed := md (st.fullResponse ++ s) }
    | some (.doneEv mid cid _) => { st with messageId := mid, conversationId := cid }
    | _ => st
  else st

def isWSChar (c : Char) : Bool := c = ' ' || c = '\n' || c = '\t' || c = '\r'

def trimWS (s : List Char) : List Char :=
  ((s.dropWhile isWSChar).reverse.dropWhile isWSChar).reverse

/-- `if (buffer.trim()) { ... }` over the residual buffer's lines. -/
def flushResidual (md : List Char → List Char) (st : LoopState)
    (residual : List Char) : LoopState :=
  if trimWS residual = [] then st
  else (splitLines residual).foldl (flushLine md) st

def isDroppedInFlush : StreamEvent → Bool
  | .annotationEv _ => true
  | .imageGenerated _ _ => true
  | .audioGenerated _ _ => true
  | .errorEv _ => true
  | _ => false

/-- The state change the same event causes when dispatched mid-stream. -/
def midStreamEffect (st st' : LoopState) : StreamEvent → Prop
  | .annotationEv url => st'.annotationUrl = some url
  | .imageGenerated url prompt => st'.artifacts = st.artifacts ++ [.imageNode url prompt]
  | .audioGenerated url text => st'.artifacts = st.artifacts ++ [.audioNode url text]
  | .errorEv m => st'.toasts = st.toasts ++ [.errorN m]
  | _ => True

/-- C10.  The end-of-stream residual flush processes only `content` and
`done`: a `data:` line whose decoded event is `annotation`,
`image_generated`, `audio_generated` or `error` leaves the flush state
completely unchanged, while the very same event arriving mid-stream does
produce its effect. -/
theorem flush_drops_non_content_events (md : List Char → List Char) (st : LoopState)
    (line : List Char) (e : StreamEvent) (t : Nat)
    (hparse : lineEvent line = some e) (hdrop : isDroppedInFlush e = true) :
    flushLine md st line = st ∧ midStreamEffect st (stepAct md st (.recv t e)) e := by
  unfold lineEvent at hparse
  by_cases hpre : dataTag.isPrefixOf line = true
  · rw [if_pos hpre] at hparse
    constructor
    · unfold flushLine
      rw [if_pos hpre, hparse]
      cases e <;> simp [isDroppedInFlush] at hdrop <;> rfl
    · cases e <;> simp [isDroppedInFlush] at hdrop <;> exact rfl
  · rw [if_neg hpre] at hparse
    exact absurd hparse (by simp)

/-- Witness for C10: an `error` event in a trailing partial frame is
dropped by the flush, though mid-stream it raises a toast. -/
theorem flush_drops_non_content_events_witness :
    lineEvent ("data: \x7b\"type\":\"error\",\"error\":\"x\"\x7d".toList) =
        some (.errorEv ("x".toList)) ∧
      isDroppedInFlush (.errorEv ("x".toList)) = true ∧
      (flushLine (fun s => s) (initLoopState 0)
          ("data: \x7b\"type\":\"error\",\"error\":\"x\"\x7d".toList) = initLoopState 0 ∧
        midStreamEffect (initLoopState 0)
          (stepAct (fun s => s) (initLoopState 0)
            (.recv 1 (.errorEv ("x".toList)))) (.errorEv ("x".toList))) :=
  ⟨by decide, by decide,
    flush_drops_non_content_events (fun s => s) (initLoopState 0) _ _ 1
      (by decide) (by decide)⟩

/-! ## Malformed JSON frames are skipped (C6) -/

theorem splitLines_no_nl {g : List Char} (h : ∀ c ∈ g, c ≠ '\n') : splitLines g = [g] := by
  induction g with
  | nil => rfl
  | cons c r ih =>
    show (if c = '\n' then [] :: splitLines r else consHead c (splitLines r)) = _
    rw [if_neg (h c (by simp)), ih (fun d hd => h d (by simp [hd]))]
    rfl

theorem splitNN_sep_left {x : List Char} (r : List Char) (h : ∀ c ∈ x, c ≠ '\n') :
    splitNN (x ++ '\n' :: '\n' :: r) = x :: splitNN r := by
  match x with
  | [] => exact splitNN_cons_sep r ⟨rfl, rfl⟩
  | [c] =>
    show splitNN (c :: '\n' :: '\n' :: r) = [c] :: splitNN r
    rw [splitNN_cons_ne _ (by
      intro hc
      exact h c (by simp) hc.1)]
    rw [splitNN_cons_sep r ⟨rfl, rfl⟩]
    rfl
  | c :: c' :: x' =>
    show splitNN (c :: c' :: (x' ++ '\n' :: '\n' :: r)) = _
    rw [splitNN_cons_ne _ (by
      intro hc
      exact h c (by simp) hc.1)]
    rw [← List.cons_append]
    rw [splitNN_sep_left r (fun d hd => h d (List.mem_cons_of_mem c hd))]
    rfl

def splitEvents (s : List Char) : List StreamEvent :=
  ((splitNN s).dropLast.map frameEvents).flatten

/-- C6.  A `data:` line carrying malformed JSON between two valid
`content` frames is skipped — the decoded event sequence contains
exactly the two valid events — and feeding those events through the
dispatch loop still concatenates the two fragments correctly.  (In the
model the `JSON.parse` failure is the `none` result of `parseDataLine`,
mirroring the local `try`/`catch` that logs and continues.) -/
theorem malformed_frame_skipped (md : List Char → List Char) (t0 t : Nat)
    (g1 g2 bad c1 c2 : List Char)
    (h1 : lineEvent g1 = some (.content c1))
    (h2 : lineEvent g2 = some (.content c2))
    (hbad : lineEvent bad = none)
    (hn1 : ∀ c ∈ g1, c ≠ '\n') (hn2 : ∀ c ∈ g2, c ≠ '\n')
    (hnb : ∀ c ∈ bad, c ≠ '\n') :
    splitEvents (g1 ++ '\n' :: '\n' :: (bad ++ '\n' :: '\n' :: (g2 ++ '\n' :: '\n' :: []))) =
        [.content c1, .content c2] ∧
      (runActs md (initLoopState t0)
          ((splitEvents (g1 ++ '\n' :: '\n' ::
              (bad ++ '\n' :: '\n' :: (g2 ++ '\n' :: '\n' :: [])))).map
            (fun e => TurnAct.recv t e))).fullResponse = c1 ++ c2 := by
  have hf1 : frameEvents g1 = [.content c1] := by
    unfold frameEvents
    rw [splitLines_no_nl hn1]
    simp [List.filterMap_cons, h1]
  have hf2 : frameEvents g2 = [.content c2] := by
    unfold frameEvents
    rw [splitLines_no_nl hn2]
    simp [List.filterMap_cons, h2]
  have hfb : frameEvents bad = [] := by
    unfold frameEvents
    rw [splitLines_no_nl hnb]
    simp [List.filterMap_cons, hbad]
  have hsplit : splitNN (g1 ++ '\n' :: '\n' ::
      (bad ++ '\n' :: '\n' :: (g2 ++ '\n' :: '\n' :: []))) = [g1, bad, g2, []] := by
    rw [splitNN_sep_left _ hn1, splitNN_sep_left _ hnb, splitNN_sep_left _ hn2]
    rfl
  have hse : splitEvents (g1 ++ '\n' :: '\n' ::
      (bad ++ '\n' :: '\n' :: (g2 ++ '\n' :: '\n' :: []))) = [.content c1, .content c2] := by
    unfold splitEvents
    rw [hsplit]
    show ([g1, bad, g2].map frameEvents).flatten = _
    rw [List.map_cons, List.map_cons, List.map_cons, List.map_nil, hf1, hf2, hfb]
    rfl
  refine ⟨hse, ?_⟩
  rw [hse]
  show (runActs md (initLoopState t0)
    [TurnAct.recv t (.content c1), TurnAct.recv t (.content c2)]).fullResponse = c1 ++ c2
  rw [runActs_fullResponse]
  show [] ++ contentsOf _ = c1 ++ c2
  rw [List.nil_append]
  show c1 ++ (c2 ++ contentsOf []) = c1 ++ c2
  rw [show contentsOf [] = [] from rfl, List.append_nil]

/-- Witness for C6: the spec's concrete malformed-frame scenario, with
`data: {not json}` between two valid `content` frames. -/
theorem malformed_frame_skipped_witness :
    lineEvent ("data: \x7b\"type\":\"content\",\"content\":\"Hel\"\x7d".toList) =
        some (.content ("Hel".toList)) ∧
      lineEvent ("data: \x7bnot json\x7d".toList) = none ∧
      (splitEvents (("data: \x7b\"type\":\"content\",\"content\":\"Hel\"\x7d".toList) ++
            '\n' :: '\n' :: (("data: \x7bnot json\x7d".toList) ++ '\n' :: '\n' ::
              (("data: \x7b\"type\":\"content\",\"content\":\"lo\"\x7d".toList) ++
                '\n' :: '\n' :: []))) =
          [.content ("Hel".toList), .content ("lo".toList)] ∧
        (runActs (fun s => s) (initLoopState 0)
            ((splitEvents (("data: \x7b\"type\":\"content\",\"content\":\"Hel\"\x7d".toList) ++
                '\n' :: '\n' :: (("data: \x7bnot json\x7d".toList) ++ '\n' :: '\n' ::
                  (("data: \x7b\"type\":\"content\",\"content\":\"lo\"\x7d".toList) ++
                    '\n' :: '\n' :: [])))).map
              (fun e => TurnAct.recv 1 e))).fullResponse = ("Hel".toList) ++ ("lo".toList)) :=
  ⟨by decide, by decide,
    malformed_frame_skipped (fun s => s) 0 1 _ _ _ _ _
      (by decide) (by decide) (by decide) (by decide) (by decide) (by decide)⟩

end TangLLM
